import Mathlib

/-!
Verification of the restore orchestration core of tidb-lightning
(`lightning/restore/restore.go` and related files), shallowly embedded in
Lean 4.  Pure functions of the Go source are translated into Lean
functions; the stateful checkpoint/pipeline code is translated into
explicit state passing or step relations.  Go `int64` values are embedded
as `Int`, Go `uint64` as `Nat`, byte strings as `List Char` or `String`.
-/

namespace Lightning

/-! ### Errors

Go errors as seen by the restore controller: the `nil` error, a
context-cancellation error (`context.Canceled` / deadline), or any other
error carrying a message.  `common.IsContextCanceledError` recognises the
cancellation case. -/

inductive GoError where
  | none
  | canceled
  | other (msg : String)
deriving DecidableEq, Repr

def isContextCanceledError : GoError → Bool
  | .canceled => true
  | _ => false

/-! ### Checkpoint statuses

Modelled from the spec: the `CheckpointStatus` constants live in
`lightning/restore/checkpoints.go`, which is not among the provided
sources.  The spec fixes only the strict ordering
`MaxInvalid < Loaded < AllWritten < Closed < Imported < AlteredAutoInc <
{ChecksumSkipped, Checksummed} < {AnalyzeSkipped, Analyzed}`; the numeric
values below realise that ordering. -/

abbrev CheckpointStatus := Nat

def CheckpointStatusMaxInvalid : CheckpointStatus := 25
def CheckpointStatusLoaded : CheckpointStatus := 30
def CheckpointStatusAllWritten : CheckpointStatus := 60
def CheckpointStatusClosed : CheckpointStatus := 90
def CheckpointStatusImported : CheckpointStatus := 120
def CheckpointStatusAlteredAutoInc : CheckpointStatus := 150

/-! ### Checksum accumulator

Modelled from the spec: `verify.KVChecksum` lives in
`lightning/verification/checksum.go`, not among the provided sources.
Per spec section 4.2 it holds an `(xor-crc64, count, bytes)` triple with
`add` folding another accumulator by `(xor, +, +)`. -/

structure KVChecksum where
  checksum : Nat
  totalKVs : Nat
  totalBytes : Nat
deriving DecidableEq, Repr

def KVChecksum.add (a b : KVChecksum) : KVChecksum :=
  { checksum := Nat.xor a.checksum b.checksum
    totalKVs := a.totalKVs + b.totalKVs
    totalBytes := a.totalBytes + b.totalBytes }

def KVChecksum.zero : KVChecksum := ⟨0, 0, 0⟩

/-! ### Checkpoint data model (`ChunkCheckpoint`, `EngineCheckpoint`,
`TableCheckpoint`), following the structures used by `restore.go`. -/

structure Chunk where
  offset : Int
  endOffset : Int
  prevRowIDMax : Int
  rowIDMax : Int
deriving DecidableEq, Repr

structure ChunkCheckpointKey where
  path : String
  offset : Int
deriving DecidableEq, Repr

structure ChunkCheckpoint where
  key : ChunkCheckpointKey
  columns : Option (List Char)
  shouldIncludeRowID : Bool
  chunk : Chunk
  checksum : KVChecksum
deriving DecidableEq, Repr

structure EngineCheckpoint where
  status : CheckpointStatus
  chunks : List ChunkCheckpoint
deriving DecidableEq, Repr

structure TableCheckpoint where
  status : CheckpointStatus
  allocBase : Int
  engines : List EngineCheckpoint
deriving DecidableEq, Repr

/-! ### Checkpoint mergers and the save channel

Modelled from the spec (section 9 design notes): the merger types live in
`checkpoints.go`, not among the provided sources; they form a tagged
variant.  `StatusCheckpointMerger.SetInvalid` marks the merger invalid.
A `saveCp` pairs a table name with a merger; `rc.saveCpCh <- scp`
is embedded as appending to a list of emitted saves. -/

inductive TableCheckpointMerger where
  | status (engineID : Int) (status : CheckpointStatus) (invalid : Bool)
  | rebase (allocBase : Int)
  | chunk (engineID : Int) (key : ChunkCheckpointKey) (checksum : KVChecksum)
      (pos : Int) (rowID : Int)
deriving DecidableEq, Repr

structure SaveCp where
  tableName : String
  merger : TableCheckpointMerger
deriving DecidableEq, Repr

/-! ### `saveStatusCheckpoint` (restore.go lines 285-300)

The error-summary map (`errorSummaries.summary`) is embedded as a
function from table names to optional `(error message, status)` records;
`errorSummaries.record` overwrites the entry of one table.  The state of
the controller relevant here is the summary map together with the list of
saves emitted on `saveCpCh`. -/

structure RcState where
  errorSummaries : String → Option (String × CheckpointStatus)
  saveCpCh : List SaveCp

def errorSummariesRecord (summaries : String → Option (String × CheckpointStatus))
    (tableName : String) (msg : String) (status : CheckpointStatus) :
    String → Option (String × CheckpointStatus) :=
  fun t => if t = tableName then some (msg, status) else summaries t

def saveStatusCheckpoint (st : RcState) (tableName : String) (engineID : Int)
    (err : GoError) (statusIfSucceed : CheckpointStatus) : RcState :=
  match err with
  | .none =>
      { st with saveCpCh :=
          st.saveCpCh ++ [⟨tableName, .status engineID statusIfSucceed false⟩] }
  | .canceled => st
  | .other msg =>
      { st with
          errorSummaries := errorSummariesRecord st.errorSummaries tableName msg statusIfSucceed
          saveCpCh :=
            st.saveCpCh ++ [⟨tableName, .status engineID statusIfSucceed true⟩] }

/-! ### `newChunkRestore` (restore.go lines 913-928) and the engine
restore control flow (`restoreEngine`, lines 556-651; `importEngine`,
lines 653-690).

`newChunkRestore` seeks the file reader to the chunk's saved offset and
calls `parser.SetPos(chunk.Chunk.Offset, chunk.Chunk.PrevRowIDMax)`; the
resulting parser state is embedded as a position / last-row-ID pair.
`restoreEngine` is embedded as the sequence of externally visible actions
it performs: calling `UnsafeCloseEngine`, opening the engine, and
starting one chunk-restore task per chunk whose `offset < endOffset`. -/

structure ChunkParserState where
  pos : Int
  lastRowID : Int
deriving DecidableEq, Repr

def newChunkRestoreParser (chunk : ChunkCheckpoint) : ChunkParserState :=
  { pos := chunk.chunk.offset, lastRowID := chunk.chunk.prevRowIDMax }

inductive EngineAction where
  | unsafeCloseEngine
  | openEngine
  | startChunk (index : Nat) (parser : ChunkParserState)
deriving DecidableEq, Repr

def chunkTasks : Nat → List ChunkCheckpoint → List EngineAction
  | _, [] => []
  | i, c :: rest =>
      if c.chunk.offset < c.chunk.endOffset then
        .startChunk i (newChunkRestoreParser c) :: chunkTasks (i + 1) rest
      else
        chunkTasks (i + 1) rest

def restoreEngineActions (cp : EngineCheckpoint) : List EngineAction :=
  if CheckpointStatusClosed ≤ cp.status then
    [.unsafeCloseEngine]
  else
    .openEngine :: chunkTasks 0 cp.chunks

/-- `importEngine` calls `ClosedEngine.Import` only when the engine's
checkpoint status is below `CheckpointStatusImported`; otherwise it
returns `nil` immediately. -/
def importEngineCallsImport (cp : EngineCheckpoint) : Bool :=
  decide (cp.status < CheckpointStatusImported)

/-! ### `restoreTable` step 1 (restore.go lines 466-498)

The row-ID allocator (`kv.NewPanickingAllocator`, not among the provided
sources) is modelled from the spec: it holds a base and `Rebase` raises
the base to the given value (never lowers it).  `populateChunks` consults
the data-file layout, an external collaborator; its result is taken as a
parameter `populated`.  `mathutil.MaxInt64` is `max` on `Int`. -/

structure AllocatorState where
  base : Int
deriving DecidableEq, Repr

/-- Modelled from the spec: `Rebase` of the panicking allocator raises
the allocator base to `newBase` (keeping it unchanged if already
larger). -/
def allocRebase (a : AllocatorState) (newBase : Int) : AllocatorState :=
  { base := max a.base newBase }

def chunksMaxFold (base : Int) (chunks : List ChunkCheckpoint) : Int :=
  chunks.foldl (fun b c => max b c.chunk.rowIDMax) base

def enginesMaxFold (base : Int) (engines : List EngineCheckpoint) : Int :=
  engines.foldl (fun b e => chunksMaxFold b e.chunks) base

/-- Step 1 of `restoreTable`: when the checkpoint has no engines and its
status is below `AllWritten`, populate the chunks, fold the alloc base
over `AutoIncID` and every chunk's `RowIDMax`, rebase the allocator and
emit a `RebaseCheckpointMerger`.  Returns the updated checkpoint, the
updated allocator and the saves emitted on `saveCpCh`. -/
def restoreTableStep1 (tableName : String) (cp : TableCheckpoint)
    (autoIncID : Int) (populated : List EngineCheckpoint)
    (alloc : AllocatorState) :
    TableCheckpoint × AllocatorState × List SaveCp :=
  if cp.engines.length > 0 then
    (cp, alloc, [])
  else if cp.status < CheckpointStatusAllWritten then
    let cp1 := { cp with engines := populated }
    let base1 := max cp1.allocBase autoIncID
    let base2 := enginesMaxFold base1 cp1.engines
    let cp2 := { cp1 with allocBase := base2 }
    (cp2, allocRebase alloc base2, [⟨tableName, .rebase base2⟩])
  else
    (cp, alloc, [])

/-! ### `compareChecksum` (restore.go lines 1065-1093)

The local checksum folds (via `Add`) every chunk checksum of the table;
it is compared component-wise to the remote `ADMIN CHECKSUM` result.  The
`fmt.Errorf` format string of the source is reproduced verbatim; note it
has no space between `total_bytes:` and the first value. -/

structure RemoteChecksum where
  schema : String
  table : String
  checksum : Nat
  totalKVs : Nat
  totalBytes : Nat
deriving DecidableEq, Repr

def localChecksumOf (cp : TableCheckpoint) : KVChecksum :=
  cp.engines.foldl
    (fun acc e => e.chunks.foldl (fun acc2 c => acc2.add c.checksum) acc)
    KVChecksum.zero

def compareChecksum (remote : RemoteChecksum) (cp : TableCheckpoint) : Option String :=
  if remote.checksum ≠ (localChecksumOf cp).checksum ∨
      remote.totalKVs ≠ (localChecksumOf cp).totalKVs ∨
      remote.totalBytes ≠ (localChecksumOf cp).totalBytes then
    some ("checksum mismatched remote vs local => (checksum: " ++
      toString remote.checksum ++ " vs " ++ toString (localChecksumOf cp).checksum ++
      ") (total_kvs: " ++ toString remote.totalKVs ++ " vs " ++
      toString (localChecksumOf cp).totalKVs ++ ") (total_bytes:" ++
      toString remote.totalBytes ++ " vs " ++
      toString (localChecksumOf cp).totalBytes ++ ")")
  else
    Option.none

/-- The mismatch message as the spec words it (amended to the source's
format string): remote value first in each pair, no space after
`total_bytes:`. -/
def specMismatchMessage (remote : RemoteChecksum) (localChecksum : KVChecksum) : String :=
  "checksum mismatched remote vs local => (checksum: " ++
    toString remote.checksum ++ " vs " ++ toString localChecksum.checksum ++
    ") (total_kvs: " ++ toString remote.totalKVs ++ " vs " ++
    toString localChecksum.totalKVs ++ ") (total_bytes:" ++
    toString remote.totalBytes ++ " vs " ++
    toString localChecksum.totalBytes ++ ")"

/-! ### Chunk pipeline back-pressure (restore.go lines 1256-1439)

The producer/consumer hand-off of `chunkRestore.restore` is embedded as
a step relation on the pending-queue state.  The producer (encoder),
holding a freshly encoded batch of `batch` KV pairs, waits on the
condition variable while `len(block.totalKVs) > len(kvs)*maxKVQueueSize`
and appends its batch once that no longer holds; the consumer
(deliverer) takes the whole pending queue at once (`block.totalKVs =
nil`).  `pending` counts the KV pairs in `block.totalKVs`; `lastBatch`
is the length of the last encoded batch. -/

def maxKVQueueSize : Nat := 128

def maxDeliverBytes : Nat := 31 <<< 20

structure PipeState where
  pending : Nat
  lastBatch : Nat
deriving DecidableEq, Repr

inductive PipeStep : PipeState → PipeState → Prop
  | produce (s : PipeState) (batch : Nat)
      (hwait : s.pending ≤ batch * maxKVQueueSize) :
      PipeStep s ⟨s.pending + batch, batch⟩
  | consume (s : PipeState) : PipeStep s ⟨0, s.lastBatch⟩

inductive PipeReachable : PipeState → Prop
  | init : PipeReachable ⟨0, 0⟩
  | step {s s' : PipeState} : PipeReachable s → PipeStep s s' → PipeReachable s'

/-! ### `splitIntoDeliveryStreams` (restore.go lines 1207-1223)

The Go loop keeps a current sub-batch `totalKVs[i:j]` with its cumulative
byte size; when the batch is nonempty (`i < j`) and adding the next pair
would exceed `splitSize`, the batch is closed and a new one begun.  The
embedding carries the current sub-batch and its size explicitly. -/

structure KvPair where
  key : List Nat
  val : List Nat
deriving DecidableEq, Repr

def pairSize (p : KvPair) : Nat := p.key.length + p.val.length

def batchSize (b : List KvPair) : Nat := (b.map pairSize).sum

def splitRun (splitSize : Nat) (cur : List KvPair) (cumSize : Nat) :
    List KvPair → List (List KvPair)
  | [] => [cur]
  | p :: rest =>
      if cur ≠ [] ∧ splitSize < cumSize + pairSize p then
        cur :: splitRun splitSize [p] (pairSize p) rest
      else
        splitRun splitSize (cur ++ [p]) (cumSize + pairSize p) rest

def splitIntoDeliveryStreams (totalKVs : List KvPair) (splitSize : Nat) :
    List (List KvPair) :=
  splitRun splitSize [] 0 totalKVs

/-! ### `initializeColumns` (restore.go lines 1006-1030)

`tidbRowIDColumnRegex` is `` `_tidb_rowid`|(?i:\b_tidb_rowid\b) `` where
`_tidb_rowid` is `model.ExtraHandleName`: it matches either the
backquoted column name literally, or the bare name case-insensitively
between word boundaries (`\w = [0-9A-Za-z_]`). -/

def extraHandleName : String := "_tidb_rowid"

def isWordChar (c : Char) : Bool := c.isAlphanum || c = '_'

/-- Case-sensitive prefix match of a pattern against a text. -/
def csMatchAt : List Char → List Char → Bool
  | [], _ => true
  | _ :: _, [] => false
  | p :: ps, t :: ts => (t = p) && csMatchAt ps ts

/-- Case-insensitive prefix match of a lowercase pattern against a text. -/
def ciMatchAt : List Char → List Char → Bool
  | [], _ => true
  | _ :: _, [] => false
  | p :: ps, t :: ts => (t.toLower = p) && ciMatchAt ps ts

/-- The `(?i:\b_tidb_rowid\b)` alternative matches at the head of `text`,
where `prev` is the character just before `text` (none at the start of
the subject). -/
def rowIDWordAt (text : List Char) (prev : Option Char) : Bool :=
  ciMatchAt extraHandleName.toList text &&
  (match prev with
   | Option.none => true
   | some c => !isWordChar c) &&
  (match text.drop extraHandleName.length with
   | [] => true
   | c :: _ => !isWordChar c)

def rowIDScan : List Char → Option Char → Bool
  | [], _ => false
  | t :: ts, prev =>
      csMatchAt ("`" ++ extraHandleName ++ "`").toList (t :: ts) ||
      rowIDWordAt (t :: ts) prev ||
      rowIDScan ts (some t)

def tidbRowIDColumnRegexMatch (s : List Char) : Bool := rowIDScan s Option.none

structure ColumnInfo where
  name : String
deriving DecidableEq, Repr

structure TableInfoCore where
  pkIsHandle : Bool
  columns : List ColumnInfo
deriving DecidableEq, Repr

/-- The synthetic full column listing built when the parser supplied no
column list: `(` then each declared column backquoted and
comma-separated, then the backquoted row-ID column, then `)`. -/
def buildAllColumnsList (cols : List ColumnInfo) : List Char :=
  "(`".toList ++
    cols.foldl (fun acc c => acc ++ c.name.toList ++ "`,`".toList) [] ++
    extraHandleName.toList ++ "`)".toList

/-- `initializeColumns` over the parser-supplied column bytes (`none`
embeds Go's nil slice) and the table info; returns the cached column
list and the `shouldIncludeRowID` flag stored in the chunk
checkpoint. -/
def initializeColumns (core : TableInfoCore) (columns : Option (List Char)) :
    List Char × Bool :=
  let shouldIncludeRowID :=
    !core.pkIsHandle && !tidbRowIDColumnRegexMatch (columns.getD [])
  if shouldIncludeRowID then
    let cols := columns.getD []
    if cols.length ≠ 0 then
      (cols.dropLast ++ (",`" ++ extraHandleName ++ "`)").toList,
        shouldIncludeRowID)
    else
      (buildAllColumnsList core.columns, shouldIncludeRowID)
  else
    match columns with
    | Option.none => ([], shouldIncludeRowID)
    | some cols => (cols, shouldIncludeRowID)

/-! ### `extractTiDBVersion` (restore.go lines 800-820)

`strings.Split` splits around every occurrence of the separator (an
empty string yields one empty segment); `strings.Join` interleaves the
separator; `strings.TrimPrefix` drops a leading `v` when present.  They
are embedded over `List Char`.  The final `semver.NewVersion` call
belongs to the external go-semver library; the embedding returns the raw
string handed to it. -/

def splitOnChar (sep : Char) (s : List Char) : List (List Char) :=
  s.foldr
    (fun c acc =>
      match acc with
      | [] => [[c]]
      | cur :: rest => if c = sep then [] :: cur :: rest else (c :: cur) :: rest)
    [[]]

def joinWithChar (sep : Char) : List (List Char) → List Char
  | [] => []
  | [x] => x
  | x :: xs => x ++ sep :: joinWithChar sep xs

def stringSplitOn (sep : Char) (s : String) : List String :=
  (splitOnChar sep s.toList).map String.mk

def stringJoin (sep : Char) (parts : List String) : String :=
  String.mk (joinWithChar sep (parts.map String.toList))

def trimLeadingV (s : String) : String :=
  match s.toList with
  | 'v' :: rest => String.mk rest
  | _ => s

def extractTiDBVersion (version : String) : Except String String :=
  let versions := stringSplitOn '-' version
  let n := versions.length
  if n = 3 ∨ n = 4 then
    .ok (trimLeadingV (stringJoin '-' (versions.drop 2)))
  else if n = 5 ∨ n = 6 then
    .ok (trimLeadingV (stringJoin '-' ((versions.take (n - 2)).drop 2)))
  else
    .error ("not a valid TiDB version: " ++ version)

/-! ### `checkVersion` (restore.go lines 883-893)

The semver comparison follows the external coreos/go-semver library:
compare `(major, minor, patch)` numerically, then pre-release strings
per semver precedence (absence of a pre-release ranks higher; identifier
lists split on `.` compare element-wise, numeric identifiers before
alphanumeric ones, numerics by value, alphanumerics as strings, a prefix
ranking lower). -/

structure SemVersion where
  major : Nat
  minor : Nat
  patch : Nat
  preRelease : String
  metadata : String
deriving DecidableEq, Repr

/-- `strconv.Atoi`: an optional sign followed by one or more digits. -/
def atoiOk (s : String) : Option Int :=
  let digitsVal : List Char → Int :=
    fun cs => Int.ofNat (cs.foldl (fun n c => n * 10 + (c.toNat - 48)) 0)
  match s.toList with
  | [] => Option.none
  | '+' :: rest =>
      if rest ≠ [] ∧ rest.all Char.isDigit then some (digitsVal rest) else Option.none
  | '-' :: rest =>
      if rest ≠ [] ∧ rest.all Char.isDigit then some (-(digitsVal rest)) else Option.none
  | cs =>
      if cs.all Char.isDigit then some (digitsVal cs) else Option.none

/-- Go's byte-wise string comparison (`a < b` on strings), as a Boolean
lexicographic comparison of the characters; byte-wise UTF-8 order agrees
with code-point order. -/
def strLtB : List Char → List Char → Bool
  | [], [] => false
  | [], _ :: _ => true
  | _ :: _, [] => false
  | a :: as, b :: bs => if a < b then true else if b < a then false else strLtB as bs

def recursivePreReleaseCompare : List String → List String → Int
  | [], [] => 0
  | [], _ :: _ => -1
  | _ :: _, [] => 1
  | a :: as, b :: bs =>
      match atoiOk a, atoiOk b with
      | some aI, some bI =>
          if aI > bI then 1 else if aI < bI then -1
          else recursivePreReleaseCompare as bs
      | some _, Option.none => -1
      | Option.none, some _ => 1
      | Option.none, Option.none =>
          if strLtB b.toList a.toList then 1 else if strLtB a.toList b.toList then -1
          else recursivePreReleaseCompare as bs

def preReleaseCompare (a b : SemVersion) : Int :=
  if a.preRelease = "" ∧ b.preRelease ≠ "" then 1
  else if a.preRelease ≠ "" ∧ b.preRelease = "" then -1
  else if a.preRelease ≠ "" ∧ b.preRelease ≠ "" then
    recursivePreReleaseCompare (stringSplitOn '.' a.preRelease)
      (stringSplitOn '.' b.preRelease)
  else 0

def compareVersions (a b : SemVersion) : Int :=
  if a.major > b.major then 1 else if a.major < b.major then -1
  else if a.minor > b.minor then 1 else if a.minor < b.minor then -1
  else if a.patch > b.patch then 1 else if a.patch < b.patch then -1
  else preReleaseCompare a b

def versionString (v : SemVersion) : String :=
  toString v.major ++ "." ++ toString v.minor ++ "." ++ toString v.patch ++
    (if v.preRelease ≠ "" then "-" ++ v.preRelease else "") ++
    (if v.metadata ≠ "" then "+" ++ v.metadata else "")

def checkVersion (component : String) (expected actual : SemVersion) :
    Option String :=
  if 0 ≤ compareVersions actual expected then
    Option.none
  else
    some (component ++ " version too old, expected '>=" ++
      versionString expected ++ "', found '" ++ versionString actual ++ "'")

def requiredTiDBVersion : SemVersion := ⟨2, 1, 0, "", ""⟩
def requiredPDVersion : SemVersion := ⟨2, 1, 0, "", ""⟩
def requiredTiKVVersion : SemVersion := ⟨2, 1, 0, "", ""⟩

/-! ### `DoChecksum` and `increaseGCLifeTime` (restore.go lines 1134-1198)

The SQL side (`ObtainGCLifeTime` / `UpdateGCLifeTime` reading and writing
the `tikv_gc_life_time` variable, and the `ADMIN CHECKSUM` query) is
embedded as explicit state passing over the variable's value, with an
oracle fixing the outcome of the external calls.  `time.ParseDuration`
is Go library code, supplied as an oracle function returning nanoseconds;
`defaultGCLifeTime = 100 * time.Hour` and its `String()` rendering is
`100h0m0s`. -/

def defaultGCLifeTimeNanos : Int := 360000000000000

def defaultGCLifeTimeStr : String := "100h0m0s"

structure ChecksumDB where
  gcLifeTime : String
deriving DecidableEq, Repr

structure ChecksumOracle where
  parseDuration : String → Option Int
  obtainOk : Bool
  checksumResult : Option RemoteChecksum

/-- `increaseGCLifeTime`: obtain the original `tikv_gc_life_time`; decide
whether to raise it (empty, or parsing to less than 100 hours); raise it
when needed.  Returns the original value and the updated state, or an
error (obtain failure or unparsable duration) leaving the state
untouched. -/
def increaseGCLifeTime (o : ChecksumOracle) (db : ChecksumDB) :
    Except String (String × ChecksumDB) :=
  if !o.obtainOk then
    .error "obtain gc life time failed"
  else
    let oriGCLifeTime := db.gcLifeTime
    let increase? : Except String Bool :=
      if oriGCLifeTime ≠ "" then
        match o.parseDuration oriGCLifeTime with
        | Option.none => .error "parse duration failed"
        | some d => .ok (decide (d < defaultGCLifeTimeNanos))
      else
        .ok true
    match increase? with
    | .error e => .error e
    | .ok true => .ok (oriGCLifeTime, { gcLifeTime := defaultGCLifeTimeStr })
    | .ok false => .ok (oriGCLifeTime, db)

/-- `DoChecksum`: raise the GC lifetime, run `ADMIN CHECKSUM` against the
resulting state, and restore the original value in a deferred cleanup
that runs whether or not the query succeeded.  Returns the query result,
the final state, and the value `tikv_gc_life_time` held while the
checksum query ran (`none` when the query never ran). -/
def DoChecksum (o : ChecksumOracle) (db : ChecksumDB) :
    Except String RemoteChecksum × ChecksumDB × Option String :=
  match increaseGCLifeTime o db with
  | .error e => (.error e, db, Option.none)
  | .ok (oriGCLifeTime, db1) =>
      let gcDuringQuery := db1.gcLifeTime
      let res : Except String RemoteChecksum :=
        match o.checksumResult with
        | some cs => .ok cs
        | Option.none => .error "checksum query failed"
      (res, { gcLifeTime := oriGCLifeTime }, some gcDuringQuery)

/-! ## Theorems -/

/-- **C1.** For every call to
`saveStatusCheckpoint(tableName, engineID, err, statusIfSucceed)`: if
`err` is nil, a `StatusCheckpointMerger` carrying `statusIfSucceed` is
emitted on the save channel and the error-summary map is unchanged; if
`err` is a context-cancellation error, nothing happens (no checkpoint
delta is emitted, no invalid mark is set, no error summary is recorded);
for every other non-nil `err`, the emitted merger is marked invalid and
`(tableName, err, statusIfSucceed)` is recorded in `errorSummaries`. -/
theorem c1_saveStatusCheckpoint (st : RcState) (tableName : String)
    (engineID : Int) (err : GoError) (statusIfSucceed : CheckpointStatus) :
    (err = .none →
      saveStatusCheckpoint st tableName engineID err statusIfSucceed =
        { st with saveCpCh :=
            st.saveCpCh ++ [⟨tableName, .status engineID statusIfSucceed false⟩] }) ∧
    (err = .canceled →
      saveStatusCheckpoint st tableName engineID err statusIfSucceed = st) ∧
    (∀ msg, err = .other msg →
      (saveStatusCheckpoint st tableName engineID err statusIfSucceed).saveCpCh =
        st.saveCpCh ++ [⟨tableName, .status engineID statusIfSucceed true⟩] ∧
      (saveStatusCheckpoint st tableName engineID err statusIfSucceed).errorSummaries
          tableName = some (msg, statusIfSucceed)) := by
  refine ⟨fun h => ?_, fun h => ?_, fun msg h => ?_⟩ <;>
    subst h <;>
    simp [saveStatusCheckpoint, errorSummariesRecord]

/-- Witness for C1 at concrete inputs: a cancellation error leaves the
state untouched. -/
theorem c1_saveStatusCheckpoint_witness :
    (GoError.canceled = GoError.canceled) ∧
    saveStatusCheckpoint ⟨fun _ => Option.none, []⟩ "`db`.`tbl`" (-1)
        .canceled CheckpointStatusImported =
      ⟨fun _ => Option.none, []⟩ :=
  ⟨rfl,
    (c1_saveStatusCheckpoint ⟨fun _ => Option.none, []⟩ "`db`.`tbl`" (-1)
      .canceled CheckpointStatusImported).2.1 rfl⟩

/-- **C4 counterexample.** At remote checksum `(1, 2, 3)` against an
empty table checkpoint (local `(0, 0, 0)`), `compareChecksum` produces
the source's message, whose `total_bytes` component has no space after
the colon, so the message differs from the form stated in the claim. -/
theorem c4_counterexample :
    compareChecksum ⟨"s", "t", 1, 2, 3⟩ ⟨CheckpointStatusLoaded, 0, []⟩ =
      some ("checksum mismatched remote vs local => (checksum: 1 vs 0)" ++
        " (total_kvs: 2 vs 0) (total_bytes:3 vs 0)") ∧
    ("checksum mismatched remote vs local => (checksum: 1 vs 0)" ++
        " (total_kvs: 2 vs 0) (total_bytes:3 vs 0)" : String) ≠
      ("checksum mismatched remote vs local => (checksum: 1 vs 0)" ++
        " (total_kvs: 2 vs 0) (total_bytes: 3 vs 0)") := by
  exact ⟨by decide, by decide⟩

/-- **C4 (amended).** `compareChecksum` returns an error if and only if
the remote checksum obtained from `ADMIN CHECKSUM` differs from the fold
(via `Add`) of all chunk checksums of the table in at least one of the
three components, and the error message is
`checksum mismatched remote vs local => (checksum: A vs B)
(total_kvs: X vs Y) (total_bytes:P vs Q)` — remote value first in each
pair, no space after `total_bytes:`; when all three components are equal
it returns nil. -/
theorem c4_compareChecksum (remote : RemoteChecksum) (cp : TableCheckpoint) :
    (compareChecksum remote cp = Option.none ↔
      (remote.checksum = (localChecksumOf cp).checksum ∧
       remote.totalKVs = (localChecksumOf cp).totalKVs ∧
       remote.totalBytes = (localChecksumOf cp).totalBytes)) ∧
    (compareChecksum remote cp ≠ Option.none →
      compareChecksum remote cp =
        some (specMismatchMessage remote (localChecksumOf cp))) := by
  unfold compareChecksum specMismatchMessage
  split
  · rename_i h
    constructor
    · simp only [reduceCtorEq, false_iff]
      tauto
    · intro _
      rfl
  · rename_i h
    push_neg at h
    simp [h]

/-- Witness for C4 at concrete inputs: a mismatching remote checksum
yields exactly the spec mismatch message. -/
theorem c4_compareChecksum_witness :
    (compareChecksum ⟨"s", "t", 8, 2, 3⟩ ⟨CheckpointStatusLoaded, 0, []⟩ ≠
      Option.none) ∧
    compareChecksum ⟨"s", "t", 8, 2, 3⟩ ⟨CheckpointStatusLoaded, 0, []⟩ =
      some (specMismatchMessage ⟨"s", "t", 8, 2, 3⟩
        (localChecksumOf ⟨CheckpointStatusLoaded, 0, []⟩)) :=
  ⟨by decide,
    (c4_compareChecksum ⟨"s", "t", 8, 2, 3⟩ ⟨CheckpointStatusLoaded, 0, []⟩).2
      (by decide)⟩

/-- **C8.** For every input string, `extractTiDBVersion` splits on `-`
and: when the split yields 3 or 4 segments, it parses the join of
segments `[2:end]` (with a leading `v` stripped) as semver; when it
yields 5 or 6 segments, it drops the last two segments and parses the
join of segments `[2:end-2]` the same way; for any other number of
segments it fails with `not a valid TiDB version: <raw input>`. -/
theorem c8_extractTiDBVersion (version : String) :
    ((stringSplitOn '-' version).length = 3 ∨
        (stringSplitOn '-' version).length = 4 →
      extractTiDBVersion version =
        .ok (trimLeadingV (stringJoin '-' ((stringSplitOn '-' version).drop 2)))) ∧
    ((stringSplitOn '-' version).length = 5 ∨
        (stringSplitOn '-' version).length = 6 →
      extractTiDBVersion version =
        .ok (trimLeadingV (stringJoin '-'
          (((stringSplitOn '-' version).take
              ((stringSplitOn '-' version).length - 2)).drop 2)))) ∧
    ((stringSplitOn '-' version).length ≤ 2 ∨
        7 ≤ (stringSplitOn '-' version).length →
      extractTiDBVersion version =
        .error ("not a valid TiDB version: " ++ version)) := by
  refine ⟨fun h => ?_, fun h => ?_, fun h => ?_⟩ <;>
    (unfold extractTiDBVersion; dsimp only; split_ifs <;> first | rfl | omega)

/-- Witness for C8 at concrete inputs: a six-segment version string
keeps its release-candidate suffix and drops the commit suffix; a
two-segment string is rejected. -/
theorem c8_extractTiDBVersion_witness :
    ((stringSplitOn '-' "5.7.10-TiDB-v2.1.0-rc.1-7-g38c939f").length = 5 ∨
      (stringSplitOn '-' "5.7.10-TiDB-v2.1.0-rc.1-7-g38c939f").length = 6) ∧
    extractTiDBVersion "5.7.10-TiDB-v2.1.0-rc.1-7-g38c939f" = .ok "2.1.0-rc.1" ∧
    ((stringSplitOn '-' "5.7.25-TiDB").length ≤ 2 ∨
      7 ≤ (stringSplitOn '-' "5.7.25-TiDB").length) ∧
    extractTiDBVersion "5.7.25-TiDB" =
      .error "not a valid TiDB version: 5.7.25-TiDB" := by
  refine ⟨by decide, ?_, by decide, ?_⟩
  · have h := (c8_extractTiDBVersion "5.7.10-TiDB-v2.1.0-rc.1-7-g38c939f").2.1
      (by decide)
    exact h.trans rfl
  · have h := (c8_extractTiDBVersion "5.7.25-TiDB").2.2 (by decide)
    exact h.trans rfl

/-- Characterisation of the chunk tasks started by `restoreEngine`: a
task with index `j` and parser state `p` is started exactly when the
chunk at position `j - i` of the remaining list has `offset < endOffset`
and `p` is the parser state seeded from its saved offset and
`prevRowIDMax`. -/
theorem mem_chunkTasks (i j : Nat) (p : ChunkParserState)
    (cs : List ChunkCheckpoint) :
    EngineAction.startChunk j p ∈ chunkTasks i cs ↔
      ∃ k c, cs.get? k = some c ∧ j = i + k ∧
        c.chunk.offset < c.chunk.endOffset ∧ p = newChunkRestoreParser c := by
  induction cs generalizing i with
  | nil => simp [chunkTasks]
  | cons c rest ih =>
    unfold chunkTasks
    split
    · rename_i hlt
      simp only [List.mem_cons, ih (i + 1)]
      constructor
      · rintro (h | ⟨k, d, hget, hj, hd, hp⟩)
        · injection h with h1 h2
          exact ⟨0, c, rfl, by omega, hlt, h2⟩
        · exact ⟨k + 1, d, by simpa using hget, by omega, hd, hp⟩
      · rintro ⟨k, d, hget, hj, hd, hp⟩
        cases k with
        | zero =>
          simp only [List.get?_cons_zero, Option.some.injEq] at hget
          subst hget
          subst hp
          left
          simp [hj]
        | succ k =>
          exact Or.inr ⟨k, d, by simpa using hget, by omega, hd, hp⟩
    · rename_i hge
      rw [ih (i + 1)]
      constructor
      · rintro ⟨k, d, hget, hj, hd, hp⟩
        exact ⟨k + 1, d, by simpa using hget, by omega, hd, hp⟩
      · rintro ⟨k, d, hget, hj, hd, hp⟩
        cases k with
        | zero =>
          simp only [List.get?_cons_zero, Option.some.injEq] at hget
          subst hget
          exact absurd hd hge
        | succ k =>
          exact ⟨k, d, by simpa using hget, by omega, hd, hp⟩

/-- **C2.** On resume from a checkpoint: for every engine whose
checkpoint status is at least `Closed`, `restoreEngine` calls
`UnsafeCloseEngine` and returns the resulting `ClosedEngine` without
opening the engine or processing any chunk; for every engine whose
status is at least `Imported`, `importEngine` returns nil without
calling `Import`; for every chunk with `offset >= endOffset` no
chunk-restore task is started; and every chunk-restore task that is
started begins parsing at the chunk's saved offset with row-ID position
`prevRowIDMax`. -/
theorem c2_resume (cp : EngineCheckpoint) :
    (CheckpointStatusClosed ≤ cp.status →
      restoreEngineActions cp = [.unsafeCloseEngine]) ∧
    (CheckpointStatusImported ≤ cp.status →
      importEngineCallsImport cp = false) ∧
    (∀ k c, cp.chunks.get? k = some c →
      c.chunk.endOffset ≤ c.chunk.offset →
      ∀ p, EngineAction.startChunk k p ∉ restoreEngineActions cp) ∧
    (∀ k p, EngineAction.startChunk k p ∈ restoreEngineActions cp →
      ∃ c, cp.chunks.get? k = some c ∧ c.chunk.offset < c.chunk.endOffset ∧
        p = { pos := c.chunk.offset, lastRowID := c.chunk.prevRowIDMax }) := by
  refine ⟨fun h => ?_, fun h => ?_, fun k c hget hge p hmem => ?_, fun k p hmem => ?_⟩
  · simp [restoreEngineActions, h]
  · simp only [importEngineCallsImport, decide_eq_false_iff_not, not_lt]
    exact h
  · unfold restoreEngineActions at hmem
    split at hmem
    · simp at hmem
    · simp only [List.mem_cons, reduceCtorEq, false_or] at hmem
      obtain ⟨k', c', hget', hj, hlt, -⟩ := (mem_chunkTasks 0 k p cp.chunks).mp hmem
      simp only [Nat.zero_add] at hj
      subst hj
      rw [hget] at hget'
      cases hget'
      omega
  · unfold restoreEngineActions at hmem
    split at hmem
    · simp at hmem
    · simp only [List.mem_cons, reduceCtorEq, false_or] at hmem
      obtain ⟨k', c', hget', hj, hlt, hp⟩ := (mem_chunkTasks 0 k p cp.chunks).mp hmem
      simp only [Nat.zero_add] at hj
      subst hj
      exact ⟨c', hget', hlt, hp⟩

/-- Witness for C2 at concrete inputs: an engine at `Closed` is rebuilt
via `UnsafeCloseEngine` alone, and an engine at `Imported` skips
`Import`. -/
theorem c2_resume_witness :
    (CheckpointStatusClosed ≤
      (EngineCheckpoint.mk CheckpointStatusClosed []).status) ∧
    restoreEngineActions ⟨CheckpointStatusClosed, []⟩ = [.unsafeCloseEngine] ∧
    (CheckpointStatusImported ≤
      (EngineCheckpoint.mk CheckpointStatusImported []).status) ∧
    importEngineCallsImport ⟨CheckpointStatusImported, []⟩ = false :=
  ⟨by decide, (c2_resume ⟨CheckpointStatusClosed, []⟩).1 (by decide),
    by decide, (c2_resume ⟨CheckpointStatusImported, []⟩).2.1 (by decide)⟩

/-- The fold of `max` over the chunks of one engine dominates its
starting base. -/
theorem le_chunksMaxFold (b : Int) (cs : List ChunkCheckpoint) :
    b ≤ chunksMaxFold b cs := by
  induction cs generalizing b with
  | nil => exact le_refl b
  | cons c rest ih =>
    calc b ≤ max b c.chunk.rowIDMax := le_max_left _ _
      _ ≤ chunksMaxFold (max b c.chunk.rowIDMax) rest := ih _
      _ = chunksMaxFold b (c :: rest) := rfl

/-- The fold of `max` over the chunks of one engine dominates every
chunk's `RowIDMax`. -/
theorem mem_le_chunksMaxFold (b : Int) (cs : List ChunkCheckpoint)
    (c : ChunkCheckpoint) (hc : c ∈ cs) :
    c.chunk.rowIDMax ≤ chunksMaxFold b cs := by
  induction cs generalizing b with
  | nil => cases hc
  | cons d rest ih =>
    rcases List.mem_cons.mp hc with h | h
    · subst h
      calc c.chunk.rowIDMax ≤ max b c.chunk.rowIDMax := le_max_right _ _
        _ ≤ chunksMaxFold (max b c.chunk.rowIDMax) rest := le_chunksMaxFold _ _
        _ = chunksMaxFold b (c :: rest) := rfl
    · exact ih _ h

theorem le_enginesMaxFold (b : Int) (es : List EngineCheckpoint) :
    b ≤ enginesMaxFold b es := by
  induction es generalizing b with
  | nil => exact le_refl b
  | cons e rest ih =>
    calc b ≤ chunksMaxFold b e.chunks := le_chunksMaxFold _ _
      _ ≤ enginesMaxFold (chunksMaxFold b e.chunks) rest := ih _
      _ = enginesMaxFold b (e :: rest) := rfl

theorem mem_le_enginesMaxFold (b : Int) (es : List EngineCheckpoint)
    (e : EngineCheckpoint) (he : e ∈ es) (c : ChunkCheckpoint)
    (hc : c ∈ e.chunks) :
    c.chunk.rowIDMax ≤ enginesMaxFold b es := by
  induction es generalizing b with
  | nil => cases he
  | cons d rest ih =>
    rcases List.mem_cons.mp he with h | h
    · subst h
      calc c.chunk.rowIDMax ≤ chunksMaxFold b e.chunks :=
            mem_le_chunksMaxFold _ _ _ hc
        _ ≤ enginesMaxFold (chunksMaxFold b e.chunks) rest := le_enginesMaxFold _ _
        _ = enginesMaxFold b (e :: rest) := rfl
    · exact ih _ h

/-- **C3.** For every table whose chunks are freshly populated (no
engines in the checkpoint and status below `AllWritten`), after step 1
of `restoreTable` and before any chunk encoding begins, the table's
`AllocBase` satisfies
`AllocBase >= max(tableInfo.AutoIncID, max over all chunks of
chunk.RowIDMax)`, the row-ID allocator is rebased to this value, and a
`RebaseCheckpointMerger` carrying it is emitted.  The allocator was
created with base `cp.AllocBase` (`NewPanickingAllocator(cp.AllocBase)`),
which the hypothesis `halloc` records. -/
theorem c3_restoreTable_rebase (tableName : String) (cp : TableCheckpoint)
    (autoIncID : Int) (populated : List EngineCheckpoint)
    (alloc : AllocatorState) (hengines : cp.engines = [])
    (hstatus : cp.status < CheckpointStatusAllWritten)
    (halloc : alloc.base ≤ cp.allocBase) :
    autoIncID ≤ (restoreTableStep1 tableName cp autoIncID populated alloc).1.allocBase ∧
    (∀ e ∈ (restoreTableStep1 tableName cp autoIncID populated alloc).1.engines,
      ∀ c ∈ e.chunks, c.chunk.rowIDMax ≤
        (restoreTableStep1 tableName cp autoIncID populated alloc).1.allocBase) ∧
    (restoreTableStep1 tableName cp autoIncID populated alloc).2.1.base =
      (restoreTableStep1 tableName cp autoIncID populated alloc).1.allocBase ∧
    (restoreTableStep1 tableName cp autoIncID populated alloc).2.2 =
      [⟨tableName, .rebase
        (restoreTableStep1 tableName cp autoIncID populated alloc).1.allocBase⟩] := by
  have hlen : ¬ cp.engines.length > 0 := by simp [hengines]
  unfold restoreTableStep1
  rw [if_neg hlen, if_pos hstatus]
  dsimp only
  refine ⟨?_, ?_, ?_, rfl⟩
  · calc autoIncID ≤ max cp.allocBase autoIncID := le_max_right _ _
      _ ≤ enginesMaxFold (max cp.allocBase autoIncID) populated :=
          le_enginesMaxFold _ _
  · intro e he c hc
    exact mem_le_enginesMaxFold _ _ _ he _ hc
  · have hbase : alloc.base ≤ enginesMaxFold (max cp.allocBase autoIncID) populated := by
      calc alloc.base ≤ cp.allocBase := halloc
        _ ≤ max cp.allocBase autoIncID := le_max_left _ _
        _ ≤ enginesMaxFold (max cp.allocBase autoIncID) populated :=
            le_enginesMaxFold _ _
    simp [allocRebase, max_eq_right hbase]

/-- Witness for C3 at concrete inputs: a fresh table with one populated
engine holding one chunk with `RowIDMax = 50` ends with
`AllocBase = 50`, allocator base 50, and a rebase merger carrying 50. -/
theorem c3_restoreTable_rebase_witness :
    ((TableCheckpoint.mk CheckpointStatusLoaded 7 []).engines = []) ∧
    ((TableCheckpoint.mk CheckpointStatusLoaded 7 []).status <
      CheckpointStatusAllWritten) ∧
    ((AllocatorState.mk 7).base ≤ (TableCheckpoint.mk CheckpointStatusLoaded 7 []).allocBase) ∧
    (5 : Int) ≤ (restoreTableStep1 "`db`.`tbl`"
        ⟨CheckpointStatusLoaded, 7, []⟩ 5
        [⟨CheckpointStatusLoaded,
          [⟨⟨"f", 0⟩, Option.none, false, ⟨0, 10, 0, 50⟩, ⟨0, 0, 0⟩⟩]⟩]
        ⟨7⟩).1.allocBase ∧
    (restoreTableStep1 "`db`.`tbl`" ⟨CheckpointStatusLoaded, 7, []⟩ 5
        [⟨CheckpointStatusLoaded,
          [⟨⟨"f", 0⟩, Option.none, false, ⟨0, 10, 0, 50⟩, ⟨0, 0, 0⟩⟩]⟩]
        ⟨7⟩).1.allocBase = 50 := by
  refine ⟨rfl, by decide, by decide, ?_, by decide⟩
  exact (c3_restoreTable_rebase "`db`.`tbl`" ⟨CheckpointStatusLoaded, 7, []⟩ 5
    [⟨CheckpointStatusLoaded,
      [⟨⟨"f", 0⟩, Option.none, false, ⟨0, 10, 0, 50⟩, ⟨0, 0, 0⟩⟩]⟩]
    ⟨7⟩ rfl (by decide) (by decide)).1

/-- Repeatedly producing singleton batches is allowed while the pending
count stays at or below `maxKVQueueSize`: every pending count up to
`maxKVQueueSize + 1` is reachable with `lastBatch = 1`. -/
theorem pipeReachable_chain (k : Nat) (hk : k ≤ maxKVQueueSize) :
    PipeReachable ⟨k + 1, 1⟩ := by
  induction k with
  | zero =>
    have h := PipeStep.produce ⟨0, 0⟩ 1 (by simp)
    exact PipeReachable.init.step h
  | succ k ih =>
    have hk' : k ≤ maxKVQueueSize := Nat.le_of_succ_le hk
    have hwait : (⟨k + 1, 1⟩ : PipeState).pending ≤ 1 * maxKVQueueSize := by
      simp only [Nat.one_mul]
      omega
    have h := PipeStep.produce ⟨k + 1, 1⟩ 1 hwait
    exact (ih hk').step h

/-- **C5 counterexample.** The state with 129 pending KV pairs and a
last encoded batch of length 1 is reachable (the producer appends its
batch whenever the pending count is at most `len(batch) * 128`, so 129
consecutive singleton batches are admitted without any consumption), yet
129 exceeds `maxKVQueueSize * 1 = 128`: the pending queue is *not*
bounded by `maxKVQueueSize` times the last batch length. -/
theorem c5_counterexample :
    PipeReachable ⟨129, 1⟩ ∧
      ¬ ((PipeState.mk 129 1).pending ≤
          maxKVQueueSize * (PipeState.mk 129 1).lastBatch) :=
  ⟨pipeReachable_chain 128 (le_refl _), by decide⟩

/-- **C5 (amended).** In every reachable state of the chunk-restore
pipeline's producer/consumer step relation, the pending queue
(`block.totalKVs`) holds at most `maxKVQueueSize + 1` (= 129) times the
length of the last encoded KV batch: the producer blocks on the
condition variable while the pending KV count exceeds
`len(just-encoded-batch) * 128`, and only then appends its batch — so
right after the append the queue can hold up to 129 batch lengths. -/
theorem c5_pipe_bound (s : PipeState) (h : PipeReachable s) :
    s.pending ≤ (maxKVQueueSize + 1) * s.lastBatch := by
  induction h with
  | init => simp
  | @step s s' hreach hstep ih =>
    cases hstep with
    | produce batch hwait =>
      have hsum : s.pending + batch ≤ batch * maxKVQueueSize + batch :=
        Nat.add_le_add_right hwait batch
      calc (PipeState.mk (s.pending + batch) batch).pending
          = s.pending + batch := rfl
        _ ≤ batch * maxKVQueueSize + batch := hsum
        _ = (maxKVQueueSize + 1) * batch := by ring
    | consume => simp

/-- Witness for C5 at a concrete state: the initial state is reachable
and satisfies the amended bound. -/
theorem c5_pipe_bound_witness :
    PipeReachable ⟨0, 0⟩ ∧
      (PipeState.mk 0 0).pending ≤
        (maxKVQueueSize + 1) * (PipeState.mk 0 0).lastBatch :=
  ⟨PipeReachable.init, c5_pipe_bound ⟨0, 0⟩ PipeReachable.init⟩

/-- `splitRun` partitions: the concatenation of the produced sub-batches
is the current batch followed by the rest of the input. -/
theorem splitRun_join (splitSize : Nat) (rest : List KvPair)
    (cur : List KvPair) (cumSize : Nat) :
    (splitRun splitSize cur cumSize rest).flatten = cur ++ rest := by
  induction rest generalizing cur cumSize with
  | nil => simp [splitRun]
  | cons p tail ih =>
    unfold splitRun
    split
    · simp [List.flatten, ih]
    · simp [ih]

/-- Size invariant of `splitRun`: provided the running size matches the
current batch and the current batch is small or a singleton, every
emitted sub-batch either fits in `splitSize` bytes or is a singleton
whose lone pair exceeds `splitSize` by itself. -/
theorem splitRun_sizes (splitSize : Nat) (rest : List KvPair)
    (cur : List KvPair) (cumSize : Nat) (hcum : cumSize = batchSize cur)
    (hcur : batchSize cur ≤ splitSize ∨ cur.length = 1) :
    ∀ b ∈ splitRun splitSize cur cumSize rest,
      batchSize b ≤ splitSize ∨ ∃ q, b = [q] ∧ splitSize < pairSize q := by
  induction rest generalizing cur cumSize with
  | nil =>
    intro b hb
    simp only [splitRun, List.mem_singleton] at hb
    subst hb
    rcases hcur with h | h
    · exact Or.inl h
    · rcases List.length_eq_one.mp h with ⟨q, hq⟩
      subst hq
      rcases le_or_lt (batchSize [q]) splitSize with h2 | h2
      · exact Or.inl h2
      · refine Or.inr ⟨q, rfl, ?_⟩
        simpa [batchSize] using h2
  | cons p tail ih =>
    intro b hb
    unfold splitRun at hb
    split at hb
    · rcases List.mem_cons.mp hb with h | h
      · subst h
        rcases hcur with h2 | h2
        · exact Or.inl h2
        · rcases List.length_eq_one.mp h2 with ⟨q, hq⟩
          subst hq
          rcases le_or_lt (batchSize [q]) splitSize with h3 | h3
          · exact Or.inl h3
          · refine Or.inr ⟨q, rfl, ?_⟩
            simpa [batchSize] using h3
      · exact ih [p] (pairSize p) (by simp [batchSize]) (Or.inr rfl) b h
    · rename_i hcond
      refine ih (cur ++ [p]) (cumSize + pairSize p) ?_ ?_ b hb
      · simp [batchSize, hcum]
      · rcases Decidable.em (cur = []) with hnil | hne
        · subst hnil
          exact Or.inr rfl
        · left
          have : ¬ splitSize < cumSize + pairSize p := fun hlt => hcond ⟨hne, hlt⟩
          have h4 : cumSize + pairSize p ≤ splitSize := Nat.le_of_not_lt this
          calc batchSize (cur ++ [p]) = batchSize cur + pairSize p := by
                simp [batchSize]
        _ = cumSize + pairSize p := by rw [hcum]
        _ ≤ splitSize := h4

/-- **C6.** For every list of KV pairs `kvs` and every positive split
size `S`, `splitIntoDeliveryStreams(kvs, S)` returns sub-batches whose
in-order concatenation equals `kvs` (order preserved, nothing added or
dropped), and every sub-batch's cumulative byte size
(`sum of len(key) + len(value)`) is at most `S`, unless a single pair
alone exceeds `S`, in which case that pair is emitted in its own
sub-batch. -/
theorem c6_splitIntoDeliveryStreams (kvs : List KvPair) (S : Nat)
    (_hS : 0 < S) :
    (splitIntoDeliveryStreams kvs S).flatten = kvs ∧
    ∀ b ∈ splitIntoDeliveryStreams kvs S,
      batchSize b ≤ S ∨ ∃ q, b = [q] ∧ S < pairSize q := by
  constructor
  · simpa using splitRun_join S kvs [] 0
  · exact splitRun_sizes S kvs [] 0 (by simp [batchSize]) (Or.inl (by simp [batchSize]))

/-- Witness for C6 at concrete inputs: four pairs with sizes
`2, 2, 8, 1` split at `S = 4` into `[2, 2]`, `[8]`, `[1]`. -/
theorem c6_splitIntoDeliveryStreams_witness :
    (0 < 4) ∧
    (splitIntoDeliveryStreams
        [⟨[1], [1]⟩, ⟨[1], [1]⟩, ⟨[1, 2, 3, 4, 5], [1, 2, 3]⟩, ⟨[1], []⟩] 4).flatten =
      [⟨[1], [1]⟩, ⟨[1], [1]⟩, ⟨[1, 2, 3, 4, 5], [1, 2, 3]⟩, ⟨[1], []⟩] ∧
    ∀ b ∈ splitIntoDeliveryStreams
        [⟨[1], [1]⟩, ⟨[1], [1]⟩, ⟨[1, 2, 3, 4, 5], [1, 2, 3]⟩, ⟨[1], []⟩] 4,
      batchSize b ≤ 4 ∨ ∃ q, b = [q] ∧ 4 < pairSize q :=
  ⟨by decide,
    (c6_splitIntoDeliveryStreams
      [⟨[1], [1]⟩, ⟨[1], [1]⟩, ⟨[1, 2, 3, 4, 5], [1, 2, 3]⟩, ⟨[1], []⟩] 4
      (by decide)).1,
    (c6_splitIntoDeliveryStreams
      [⟨[1], [1]⟩, ⟨[1], [1]⟩, ⟨[1, 2, 3, 4, 5], [1, 2, 3]⟩, ⟨[1], []⟩] 4
      (by decide)).2⟩

/-- The Go loop writing `name + backquote-comma-backquote` per declared
column, expressed as a flattened map. -/
theorem foldl_columns_eq (l : List ColumnInfo) (init : List Char) :
    l.foldl (fun acc c => acc ++ c.name.toList ++ "`,`".toList) init =
      init ++ (l.map (fun c => c.name.toList ++ "`,`".toList)).flatten := by
  induction l generalizing init with
  | nil => simp
  | cons c rest ih =>
    simp only [List.foldl_cons, List.map_cons, List.flatten_cons, ih]
    simp [List.append_assoc]

/-- A member's image is a contiguous segment of the flattened map. -/
theorem flatten_map_contains {α β : Type} (f : α → List β) (l : List α)
    (a : α) (ha : a ∈ l) :
    ∃ s t, (l.map f).flatten = s ++ f a ++ t := by
  induction l with
  | nil => cases ha
  | cons b rest ih =>
    rcases List.mem_cons.mp ha with h | h
    · subst h
      exact ⟨[], (rest.map f).flatten, by simp⟩
    · rcases ih h with ⟨s, t, hst⟩
      exact ⟨f b ++ s, t, by simp [hst, List.append_assoc]⟩

/-- **C7 counterexample.** With `columns = "(a,b)"` and
`pkIsHandle = false`, `initializeColumns` produces
`(a,b,\x60_tidb_rowid\x60)` — the injected row-ID column is surrounded
by backquotes — which differs from the claim's stated result
`(a,b,_tidb_rowid)`. -/
theorem c7_counterexample :
    (initializeColumns ⟨false, [⟨"a"⟩, ⟨"b"⟩]⟩ (some "(a,b)".toList)).1 =
      "(a,b,`_tidb_rowid`)".toList ∧
    "(a,b,`_tidb_rowid`)".toList ≠ "(a,b,_tidb_rowid)".toList :=
  ⟨by decide, by decide⟩

/-- **C7 (amended).** `initializeColumns` satisfies all four specified
cases, with the injected row-ID column written backquoted: (i) with
`columns = nil` and `pkIsHandle = false`, the resulting column list
contains all declared columns plus the row-ID column and
`shouldIncludeRowID` is true; (ii) with `columns = "(a,b)"` and
`pkIsHandle = false`, the result is `(a,b,\x60_tidb_rowid\x60)` and
`shouldIncludeRowID` is true; (iii) with columns already mentioning
`_tidb_rowid` and `pkIsHandle = false`, the result equals the input and
`shouldIncludeRowID` is false; (iv) with `columns = nil` and
`pkIsHandle = true`, the result is the empty list and
`shouldIncludeRowID` is false. -/
theorem c7_initializeColumns (cols : List ColumnInfo) :
    ((initializeColumns ⟨false, cols⟩ Option.none).2 = true ∧
     (initializeColumns ⟨false, cols⟩ Option.none).1 = buildAllColumnsList cols ∧
     (∀ c ∈ cols, ∃ l r,
        (initializeColumns ⟨false, cols⟩ Option.none).1 =
          l ++ c.name.toList ++ r) ∧
     (∃ l r,
        (initializeColumns ⟨false, cols⟩ Option.none).1 =
          l ++ extraHandleName.toList ++ r)) ∧
    initializeColumns ⟨false, cols⟩ (some "(a,b)".toList) =
      ("(a,b,`_tidb_rowid`)".toList, true) ∧
    initializeColumns ⟨false, cols⟩ (some "(a,_tidb_rowid)".toList) =
      ("(a,_tidb_rowid)".toList, false) ∧
    initializeColumns ⟨true, cols⟩ Option.none = ([], false) := by
  have hbuild : buildAllColumnsList cols =
      "(`".toList ++
        (cols.map (fun c => c.name.toList ++ "`,`".toList)).flatten ++
        (extraHandleName.toList ++ "`)".toList) := by
    unfold buildAllColumnsList
    rw [foldl_columns_eq]
    simp [List.append_assoc]
  refine ⟨⟨rfl, rfl, ?_, ?_⟩, rfl, rfl, rfl⟩
  · intro c hc
    rcases flatten_map_contains (fun c => c.name.toList ++ "`,`".toList) cols c hc
      with ⟨s, t, hst⟩
    refine ⟨"(`".toList ++ s,
      "`,`".toList ++ t ++ (extraHandleName.toList ++ "`)".toList), ?_⟩
    show buildAllColumnsList cols = _
    rw [hbuild, hst]
    simp [List.append_assoc]
  · refine ⟨"(`".toList ++
      (cols.map (fun c => c.name.toList ++ "`,`".toList)).flatten,
      "`)".toList, ?_⟩
    show buildAllColumnsList cols = _
    rw [hbuild]
    simp [List.append_assoc]

/-- Witness for C7 at concrete inputs: with declared columns `a, b`, the
synthesised listing contains the declared column `a`. -/
theorem c7_initializeColumns_witness :
    ((ColumnInfo.mk "a") ∈ [ColumnInfo.mk "a", ColumnInfo.mk "b"]) ∧
    ∃ l r,
      (initializeColumns ⟨false, [⟨"a"⟩, ⟨"b"⟩]⟩ Option.none).1 =
        l ++ "a".toList ++ r :=
  ⟨by decide,
    (c7_initializeColumns [⟨"a"⟩, ⟨"b"⟩]).1.2.2.1 ⟨"a"⟩ (by decide)⟩

/-- `strLtB` is irreflexive. -/
theorem strLtB_irrefl (a : List Char) : strLtB a a = false := by
  induction a with
  | nil => rfl
  | cons c rest ih => simp [strLtB, lt_irrefl, ih]

/-- `strLtB` is asymmetric. -/
theorem strLtB_asymm (a b : List Char) (h : strLtB a b = true) :
    strLtB b a = false := by
  induction a generalizing b with
  | nil =>
    cases b with
    | nil => simp [strLtB] at h
    | cons d bs => rfl
  | cons c as ih =>
    cases b with
    | nil => simp [strLtB] at h
    | cons d bs =>
      unfold strLtB at h ⊢
      rcases lt_trichotomy c d with hcd | hcd | hcd
      · simp [hcd, lt_asymm hcd, not_lt_of_lt hcd]
      · subst hcd
        simp only [lt_irrefl, if_false] at h ⊢
        exact ih bs h
      · simp [hcd, lt_asymm hcd, not_lt_of_lt hcd] at h

/-- Identifier-list comparison is reflexive. -/
theorem rpc_refl (xs : List String) :
    recursivePreReleaseCompare xs xs = 0 := by
  induction xs with
  | nil => rfl
  | cons x rest ih =>
    unfold recursivePreReleaseCompare
    cases hx : atoiOk x with
    | none => simp [strLtB_irrefl, ih]
    | some v => simp [lt_irrefl, ih]

/-- A `strLtB` disequality in `Prop` form. -/
theorem strLtB_ne_true {a b : List Char} (h : strLtB a b = false) :
    ¬ strLtB a b = true := by
  simp [h]

/-- Identifier-list comparison is antisymmetric. -/
theorem rpc_neg (xs ys : List String) :
    recursivePreReleaseCompare xs ys = -(recursivePreReleaseCompare ys xs) := by
  induction xs generalizing ys with
  | nil =>
    cases ys with
    | nil => rfl
    | cons y ys => rfl
  | cons x rest ih =>
    cases ys with
    | nil => rfl
    | cons y ys =>
      cases hx : atoiOk x with
      | none =>
        cases hy : atoiOk y with
        | none =>
          simp only [recursivePreReleaseCompare, hx, hy]
          rcases Bool.eq_false_or_eq_true (strLtB y.toList x.toList) with h1 | h1
          · have h2 := strLtB_asymm _ _ h1
            rw [if_pos h1, if_neg (strLtB_ne_true h2), if_pos h1]
            rfl
          · rcases Bool.eq_false_or_eq_true (strLtB x.toList y.toList) with h2 | h2
            · rw [if_neg (strLtB_ne_true h1), if_pos h2, if_pos h2]
            · rw [if_neg (strLtB_ne_true h1), if_neg (strLtB_ne_true h2),
                if_neg (strLtB_ne_true h2), if_neg (strLtB_ne_true h1)]
              exact ih ys
        | some vy => simp [recursivePreReleaseCompare, hx, hy]
      | some vx =>
        cases hy : atoiOk y with
        | none => simp [recursivePreReleaseCompare, hx, hy]
        | some vy =>
          simp only [recursivePreReleaseCompare, hx, hy]
          rcases lt_trichotomy vx vy with hv | hv | hv
          · rw [if_neg (not_lt_of_lt hv), if_pos hv, if_pos hv]
          · subst hv
            rw [if_neg (lt_irrefl vx), if_neg (lt_irrefl vx),
              if_neg (lt_irrefl vx), if_neg (lt_irrefl vx)]
            exact ih ys
          · rw [if_pos hv, if_neg (not_lt_of_lt hv), if_pos hv]
            rfl

/-- Pre-release comparison is antisymmetric. -/
theorem preReleaseCompare_neg (a b : SemVersion) :
    preReleaseCompare a b = -(preReleaseCompare b a) := by
  unfold preReleaseCompare
  by_cases ha : a.preRelease = "" <;> by_cases hb : b.preRelease = ""
  · simp [ha, hb]
  · simp [ha, hb]
  · simp [ha, hb]
  · rw [if_neg (fun h => ha h.1), if_neg (fun h => hb h.2),
      if_pos ⟨ha, hb⟩, if_neg (fun h => hb h.1), if_neg (fun h => ha h.2),
      if_pos ⟨hb, ha⟩]
    exact rpc_neg _ _

/-- One level of the `(major, minor, patch)` comparison cascade is
antisymmetric. -/
theorem stepNeg (x y : Nat) (k k' : Int) (hk : k = -k') :
    (if x > y then (1 : Int) else if x < y then -1 else k) =
      -(if y > x then (1 : Int) else if y < x then -1 else k') := by
  rcases lt_trichotomy x y with h | h | h
  · simp [h, lt_asymm h, hk]
  · subst h
    simp [lt_irrefl, hk]
  · simp [h, lt_asymm h, hk]

/-- Version comparison is antisymmetric. -/
theorem compareVersions_neg (a b : SemVersion) :
    compareVersions a b = -(compareVersions b a) := by
  unfold compareVersions
  exact stepNeg _ _ _ _ (stepNeg _ _ _ _ (stepNeg _ _ _ _
    (preReleaseCompare_neg a b)))

/-- Version comparison is reflexive. -/
theorem compareVersions_refl (a : SemVersion) : compareVersions a a = 0 := by
  unfold compareVersions preReleaseCompare
  by_cases ha : a.preRelease = "" <;> simp [lt_irrefl, ha, rpc_refl]

/-- **C9.** For every component name and every pair of semver versions,
`checkVersion(component, expected, actual)` returns an error exactly when
`actual` is strictly less than `expected` (it returns nil when `actual`
equals or exceeds `expected`), and the error message is
`<component> version too old, expected '>=<expected>', found '<actual>'`.
Strictness is witnessed by the comparison being reflexive and
antisymmetric: `actual < expected` holds exactly when
`expected > actual`. -/
theorem c9_checkVersion (component : String) (expected actual : SemVersion) :
    (checkVersion component expected actual = Option.none ↔
      ¬ compareVersions actual expected < 0) ∧
    (compareVersions actual expected < 0 →
      checkVersion component expected actual =
        some (component ++ " version too old, expected '>=" ++
          versionString expected ++ "', found '" ++
          versionString actual ++ "'")) ∧
    compareVersions actual actual = 0 ∧
    (compareVersions actual expected < 0 ↔
      0 < compareVersions expected actual) := by
  refine ⟨?_, ?_, compareVersions_refl actual, ?_⟩
  · unfold checkVersion
    split
    · rename_i h
      simp only [true_iff]
      omega
    · rename_i h
      simp only [reduceCtorEq, false_iff, not_not]
      omega
  · intro h
    unfold checkVersion
    rw [if_neg (by omega)]
  · rw [compareVersions_neg actual expected]
    omega

/-- Witness for C9 at concrete inputs: PD at `2.0.9` against required
`2.1.0` is rejected with the exact message. -/
theorem c9_checkVersion_witness :
    compareVersions ⟨2, 0, 9, "", ""⟩ ⟨2, 1, 0, "", ""⟩ < 0 ∧
    checkVersion "PD" ⟨2, 1, 0, "", ""⟩ ⟨2, 0, 9, "", ""⟩ =
      some "PD version too old, expected '>=2.1.0', found '2.0.9'" := by
  refine ⟨by decide, ?_⟩
  have h := (c9_checkVersion "PD" ⟨2, 1, 0, "", ""⟩ ⟨2, 0, 9, "", ""⟩).2.1
    (by decide)
  exact h.trans (by decide)

/-- **C10.** `DoChecksum` never lowers `tikv_gc_life_time`: when the
original value parses as a duration of at least 100 hours, the variable
is left unchanged before the `ADMIN CHECKSUM` query; it is only raised
to 100 hours when the original is empty or parses to less than 100
hours; and in every case — including when the checksum query itself
fails — the deferred cleanup writes the original value back before
`DoChecksum` returns. -/
theorem c10_DoChecksum (o : ChecksumOracle) (db : ChecksumDB) :
    ((DoChecksum o db).2.1.gcLifeTime = db.gcLifeTime) ∧
    (∀ d, o.parseDuration db.gcLifeTime = some d →
      defaultGCLifeTimeNanos ≤ d → db.gcLifeTime ≠ "" →
      ∀ g, (DoChecksum o db).2.2 = some g → g = db.gcLifeTime) ∧
    (∀ g, (DoChecksum o db).2.2 = some g →
      g = db.gcLifeTime ∨
      (g = defaultGCLifeTimeStr ∧
        (db.gcLifeTime = "" ∨
          ∃ d, o.parseDuration db.gcLifeTime = some d ∧
            d < defaultGCLifeTimeNanos))) := by
  cases hob : o.obtainOk with
  | false =>
    have h21 : (DoChecksum o db).2.1 = db := by
      unfold DoChecksum increaseGCLifeTime
      simp [hob]
    have h22 : (DoChecksum o db).2.2 = Option.none := by
      unfold DoChecksum increaseGCLifeTime
      simp [hob]
    refine ⟨by rw [h21], ?_, ?_⟩
    · intro d _ _ _ g hg
      rw [h22] at hg
      cases hg
    · intro g hg
      rw [h22] at hg
      cases hg
  | true =>
    by_cases hemp : db.gcLifeTime = ""
    · have h21 : (DoChecksum o db).2.1 = ⟨db.gcLifeTime⟩ := by
        unfold DoChecksum increaseGCLifeTime
        simp [hob, hemp]
      have h22 : (DoChecksum o db).2.2 = some defaultGCLifeTimeStr := by
        unfold DoChecksum increaseGCLifeTime
        simp [hob, hemp]
      refine ⟨by rw [h21], ?_, ?_⟩
      · intro d _ _ hne
        exact absurd hemp hne
      · intro g hg
        rw [h22] at hg
        injection hg with hg
        exact Or.inr ⟨hg.symm, Or.inl hemp⟩
    · cases hp : o.parseDuration db.gcLifeTime with
      | none =>
        have h21 : (DoChecksum o db).2.1 = db := by
          unfold DoChecksum increaseGCLifeTime
          simp [hob, hemp, hp]
        have h22 : (DoChecksum o db).2.2 = Option.none := by
          unfold DoChecksum increaseGCLifeTime
          simp [hob, hemp, hp]
        refine ⟨by rw [h21], ?_, ?_⟩
        · intro d _ _ _ g hg
          rw [h22] at hg
          cases hg
        · intro g hg
          rw [h22] at hg
          cases hg
      | some d =>
        by_cases hd : d < defaultGCLifeTimeNanos
        · have h21 : (DoChecksum o db).2.1 = ⟨db.gcLifeTime⟩ := by
            unfold DoChecksum increaseGCLifeTime
            simp [hob, hemp, hp, hd]
          have h22 : (DoChecksum o db).2.2 = some defaultGCLifeTimeStr := by
            unfold DoChecksum increaseGCLifeTime
            simp [hob, hemp, hp, hd]
          refine ⟨by rw [h21], ?_, ?_⟩
          · intro d' hd' hge _ g _
            injection hd' with hd'
            exact absurd hge (by omega)
          · intro g hg
            rw [h22] at hg
            injection hg with hg
            exact Or.inr ⟨hg.symm, Or.inr ⟨d, rfl, hd⟩⟩
        · have h21 : (DoChecksum o db).2.1 = ⟨db.gcLifeTime⟩ := by
            unfold DoChecksum increaseGCLifeTime
            simp [hob, hemp, hp, hd]
          have h22 : (DoChecksum o db).2.2 = some db.gcLifeTime := by
            unfold DoChecksum increaseGCLifeTime
            simp [hob, hemp, hp, hd]
          refine ⟨by rw [h21], ?_, ?_⟩
          · intro d' _ _ _ g hg
            rw [h22] at hg
            injection hg with hg
            exact hg.symm
          · intro g hg
            rw [h22] at hg
            injection hg with hg
            exact Or.inl hg.symm

/-- Witness for C10 at concrete inputs: a 720-hour original GC lifetime
is left in place during the query, and even though the checksum query
fails the original value is restored on return. -/
theorem c10_DoChecksum_witness :
    (ChecksumOracle.mk
        (fun s => if s = "720h" then some 2592000000000000 else Option.none)
        true Option.none).parseDuration (ChecksumDB.mk "720h").gcLifeTime =
      some 2592000000000000 ∧
    defaultGCLifeTimeNanos ≤ (2592000000000000 : Int) ∧
    (ChecksumDB.mk "720h").gcLifeTime ≠ "" ∧
    (DoChecksum
        ⟨fun s => if s = "720h" then some 2592000000000000 else Option.none,
          true, Option.none⟩ ⟨"720h"⟩).2.2 = some "720h" ∧
    ("720h" : String) = (ChecksumDB.mk "720h").gcLifeTime ∧
    (DoChecksum
        ⟨fun s => if s = "720h" then some 2592000000000000 else Option.none,
          true, Option.none⟩ ⟨"720h"⟩).2.1.gcLifeTime =
      (ChecksumDB.mk "720h").gcLifeTime := by
  refine ⟨by decide, by decide, by decide, by decide, ?_, ?_⟩
  · exact (c10_DoChecksum
      ⟨fun s => if s = "720h" then some 2592000000000000 else Option.none,
        true, Option.none⟩ ⟨"720h"⟩).2.1 2592000000000000 (by decide)
      (by decide) (by decide) "720h" (by decide)
  · exact (c10_DoChecksum
      ⟨fun s => if s = "720h" then some 2592000000000000 else Option.none,
        true, Option.none⟩ ⟨"720h"⟩).1

end Lightning
